import Mathlib

/-!
Shallow embedding of the muxy routing tree (src/muxy/tree.py) and the
router facade (src/muxy/_asgi/router.py).

Modelling conventions:
* Handlers and middleware factories are opaque Python objects compared by
  identity; they are modelled as atoms (natural numbers). Distinct atoms
  stand for distinct objects, so identity comparison becomes equality.
* A FrozenDict children mapping is modelled as an association list.
  Python dict equality ignores insertion order, so the association list is
  kept in a canonical key-sorted form by the merge operation; trees built
  by the tree algebra on sorted inputs stay sorted. The predicate nodeWF
  states that canonical form.
* Python functions that raise ValueError are modelled with Except String.
* String splitting and joining are re-implemented over the character list
  of a String so that every definition evaluates inside the kernel.
* The recursive merge of two trees is not structurally recursive on either
  argument, so it is defined with an explicit fuel counter; the public
  wrapper passes nodeSize t1 + nodeSize t2 + 1 fuel, which strictly
  exceeds the depth of every recursive call chain, making the out-of-fuel
  branch unreachable.
-/

namespace Muxy

/-- Handler atoms: user callables compared by identity in the source. -/
abbrev Handler := Nat

/-- Middleware factory atoms, likewise compared by identity. -/
abbrev MW := Nat

/-- LeafKey enum from tree.py: the nine HTTP methods plus the synthetic
ANY_HTTP and WEBSOCKET tokens. -/
inductive LeafKey where
  | CONNECT | DELETE | GET | HEAD | OPTIONS | PATCH | POST | PUT | TRACE
  | ANY_HTTP | WEBSOCKET
  deriving DecidableEq, Repr

/-- Children of a node are keyed by a literal path segment or a LeafKey,
mirroring the str | LeafKey union used by tree.py. -/
inductive SegKey where
  | str : String → SegKey
  | leaf : LeafKey → SegKey
  deriving DecidableEq, Repr

/-- Node dataclass from tree.py. The wildcard and catchall fields hold the
(name, child) payload of WildCardNode and CatchAllNode. -/
inductive Node where
  | mk (handler : Option Handler) (middleware : List MW)
       (children : List (SegKey × Node))
       (wildcard : Option (String × Node))
       (catchall : Option (String × Node))
       (not_found_handler : Option Handler)
       (method_not_allowed_handler : Option Handler) : Node

/-- Field accessor for Node.handler. -/
def Node.handler : Node → Option Handler
  | .mk h _ _ _ _ _ _ => h

/-- Field accessor for Node.middleware. -/
def Node.middleware : Node → List MW
  | .mk _ mw _ _ _ _ _ => mw

/-- Field accessor for Node.children. -/
def Node.children : Node → List (SegKey × Node)
  | .mk _ _ ch _ _ _ _ => ch

/-- Field accessor for Node.wildcard. -/
def Node.wildcard : Node → Option (String × Node)
  | .mk _ _ _ wc _ _ _ => wc

/-- Field accessor for Node.catchall. -/
def Node.catchall : Node → Option (String × Node)
  | .mk _ _ _ _ ca _ _ => ca

/-- Field accessor for Node.not_found_handler. -/
def Node.not_found_handler : Node → Option Handler
  | .mk _ _ _ _ _ nfh _ => nfh

/-- Field accessor for Node.method_not_allowed_handler. -/
def Node.method_not_allowed_handler : Node → Option Handler
  | .mk _ _ _ _ _ _ mnah => mnah

/-- The empty Node(), i.e. every field at its dataclass default. -/
def emptyNode : Node := Node.mk none [] [] none none none none

mutual
/-- Number of Node values in a tree; used as a fuel bound for merging. -/
def nodeSize : Node → Nat
  | .mk _ _ ch wc ca _ _ => 1 + childrenSize ch + optSize wc + optSize ca

/-- Size of an optional wildcard or catchall payload. -/
def optSize : Option (String × Node) → Nat
  | none => 0
  | some (_, c) => 1 + nodeSize c

/-- Size of a children association list. -/
def childrenSize : List (SegKey × Node) → Nat
  | [] => 0
  | (_, c) :: t => 1 + nodeSize c + childrenSize t
end

/-- Helper for splitting a character list on the slash character,
accumulating the current segment in reverse. -/
def splitSlashAux (cur : List Char) : List Char → List String
  | [] => [String.mk cur.reverse]
  | c :: rest =>
    if c = '/' then String.mk cur.reverse :: splitSlashAux [] rest
    else splitSlashAux (c :: cur) rest

/-- Python str.split on a slash: always returns at least one element, and
an empty input yields a single empty segment. -/
def splitSlash (cs : List Char) : List String := splitSlashAux [] cs

/-- path[1:].split on slash, as done by find_handler and
_construct_sub_tree (the leading slash character is consumed). -/
def splitPath (path : String) : List String := splitSlash (path.data.drop 1)

/-- Python "/".join for a list of segments. -/
def joinSlash : List String → String
  | [] => ""
  | [s] => s
  | s :: rest => s ++ "/" ++ joinSlash rest

/-- listStarts pre cs holds when pre is an initial run of cs. -/
def listStarts : List Char → List Char → Bool
  | [], _ => true
  | _ :: _, [] => false
  | a :: as, b :: bs => a == b && listStarts as bs

/-- Drop the last n characters of a character list. -/
def chopEnd (cs : List Char) (n : Nat) : List Char := cs.take (cs.length - n)

/-- Python dict assignment d[k] = v on an insertion-ordered mapping:
an existing key keeps its position and gets the new value, a new key is
appended at the end. -/
def dictInsert : List (String × String) → String → String → List (String × String)
  | [], k, v => [(k, v)]
  | (k1, v1) :: t, k, v =>
    if k1 = k then (k1, v) :: t else (k1, v1) :: dictInsert t k v

/-- Association list lookup for a children mapping. -/
def childrenGet (k : SegKey) : List (SegKey × Node) → Option Node
  | [] => none
  | (k1, c) :: t => if k1 = k then some c else childrenGet k t

/-- children.get(key) for the association-list representation. -/
def lookupChild (n : Node) (k : SegKey) : Option Node :=
  childrenGet k n.children

/-- any(isinstance(k, LeafKey) for k in current.children.keys()). -/
def hasLeafKeyChild (n : Node) : Bool :=
  n.children.any fun kv =>
    match kv.1 with
    | .leaf _ => true
    | .str _ => false

/-- Result tuple of find_handler:
(handler, middleware, params, route_pattern). -/
abbrev FindResult := Handler × List MW × List (String × String) × String

/-- Lines 161 to 181 of tree.py: after segment traversal stops at a node,
resolve the method-token leaf, falling back to ANY_HTTP, then to the
405 and 404 error handlers. -/
def resolveLeaf (method : LeafKey) (current : Node)
    (params : List (String × String)) (routeParts : List String) :
    Except String FindResult :=
  match (lookupChild current (SegKey.leaf method)).or
      (lookupChild current (SegKey.leaf LeafKey.ANY_HTTP)) with
  | none =>
    if hasLeafKeyChild current then
      match current.method_not_allowed_handler with
      | none => .error "No method not allowed handler set"
      | some m => .ok (m, [], params, "")
    else
      match current.not_found_handler with
      | none => .error "No not found handler set"
      | some n => .ok (n, [], [], "")
  | some leaf =>
    match leaf.handler with
    | none =>
      match current.not_found_handler with
      | none => .error "No not found handler set"
      | some n => .ok (n, [], [], "")
    | some h =>
      .ok (h, leaf.middleware, params, "/" ++ joinSlash routeParts)

/-- The segment loop of find_handler (lines 139 to 159 of tree.py):
exact child first, then wildcard, then catchall (which consumes every
remaining segment and stops), else the not-found handler of the cursor. -/
def walk (method : LeafKey) :
    List String → Node → List (String × String) → List String →
    Except String FindResult
  | [], current, params, parts => resolveLeaf method current params parts
  | seg :: rest, current, params, parts =>
    match lookupChild current (SegKey.str seg) with
    | some child => walk method rest child params (parts ++ [seg])
    | none =>
      match current.wildcard with
      | some (name, child) =>
        walk method rest child (dictInsert params name seg)
          (parts ++ ["\x7b" ++ name ++ "\x7d"])
      | none =>
        match current.catchall with
        | some (name, child) =>
          resolveLeaf method child
            (dictInsert params name (joinSlash (seg :: rest)))
            (parts ++ ["\x7b" ++ name ++ "...\x7d"])
        | none =>
          match current.not_found_handler with
          | none => .error "No not found handler set"
          | some n => .ok (n, [], [], "")

/-- find_handler from tree.py: split the path after the leading slash and
run the traversal loop from the root. -/
def find_handler (path : String) (method : LeafKey) (tree : Node) :
    Except String FindResult :=
  walk method (splitPath path) tree [] []

/-- One step of the reversed-segment loop in _construct_sub_tree: wrap the
child in a catchall node for a name...-brace segment, a wildcard node for a
brace segment, and an exact-match child otherwise. -/
def wrapSeg (seg : String) (child : Node) : Node :=
  let cs := seg.data
  if listStarts ['\x7b'] cs && listStarts ['\x7d', '.', '.', '.'] cs.reverse then
    Node.mk none [] [] none (some (String.mk (chopEnd (cs.drop 1) 4), child)) none none
  else if listStarts ['\x7b'] cs && listStarts ['\x7d'] cs.reverse then
    Node.mk none [] [] (some (String.mk (chopEnd (cs.drop 1) 1), child)) none none none
  else
    Node.mk none [] [(SegKey.str seg, child)] none none none none

/-- The reversed loop of _construct_sub_tree: the last segment wraps the
innermost child first, so the whole path folds from the right. -/
def buildSegs : List String → Node → Node
  | [], child => child
  | seg :: rest, child => wrapSeg seg (buildSegs rest child)

/-- _construct_sub_tree from tree.py; raises when the path does not start
with a slash. -/
def _construct_sub_tree (path : String) (child : Node) : Except String Node :=
  if listStarts ['/'] path.data then .ok (buildSegs (splitPath path) child)
  else .error "path must start with slash"

/-- _construct_route_tree from tree.py: a leaf node carrying the handler
and middleware, keyed by the method under the innermost path node. -/
def _construct_route_tree (method : LeafKey) (path : String) (handler : Handler)
    (middleware : List MW) : Except String Node :=
  _construct_sub_tree path
    (Node.mk none [] [(SegKey.leaf method,
       Node.mk (some handler) middleware [] none none none none)] none none none none)

/-- Index of a LeafKey inside the enum declaration, used only to order
method-token keys in the canonical children representation. -/
def LeafKey.toIdx : LeafKey → Nat
  | .CONNECT => 0
  | .DELETE => 1
  | .GET => 2
  | .HEAD => 3
  | .OPTIONS => 4
  | .PATCH => 5
  | .POST => 6
  | .PUT => 7
  | .TRACE => 8
  | .ANY_HTTP => 9
  | .WEBSOCKET => 10

/-- Lexicographic strict order on character lists via code points. -/
def charsLt : List Char → List Char → Bool
  | [], [] => false
  | [], _ :: _ => true
  | _ :: _, [] => false
  | a :: as, b :: bs => if a < b then true else if a = b then charsLt as bs else false

/-- Strict order on children keys: literal segments before method tokens,
each group ordered internally. The order is an artefact of the canonical
association-list representation of FrozenDict and carries no semantics. -/
def SegKey.blt : SegKey → SegKey → Bool
  | .str s1, .str s2 => charsLt s1.data s2.data
  | .str _, .leaf _ => true
  | .leaf _, .str _ => false
  | .leaf k1, .leaf k2 => k1.toIdx < k2.toIdx

/-- Identity-conflict test shared by the handler and error-handler checks
of _merge_trees: both sides set and not the same object. -/
def conflictingOpt (o1 o2 : Option Handler) : Bool :=
  o1.isSome && o2.isSome && o1 != o2

mutual
/-- Fuel-indexed _merge_trees from tree.py. Children dictionaries are
merged keywise: a key present on one side keeps its node, a key present on
both recursively merges the two nodes; on the canonical sorted
representation this is a sorted two-pointer union. -/
def mergeFuel : Nat → Node → Node → Except String Node
  | 0, _, _ => .error "out of fuel"
  | fuel + 1, .mk h1 mw1 ch1 wc1 ca1 nfh1 mnah1,
      .mk h2 mw2 ch2 wc2 ca2 nfh2 mnah2 =>
    if conflictingOpt h1 h2 then .error "nodes have conflicting handlers"
    else if conflictingOpt nfh1 nfh2 then
      .error "nodes have conflicting not found handlers"
    else if conflictingOpt mnah1 mnah2 then
      .error "nodes have conflicting method not allowed handlers"
    else if !mw2.isEmpty && mw1 != mw2 then
      .error "node being merged in has conflicting middleware"
    else
      match mergeWildcardFuel fuel wc1 wc2 with
      | .error e => .error e
      | .ok wc =>
        match mergeCatchallFuel fuel ca1 ca2 with
        | .error e => .error e
        | .ok ca =>
          match mergeChildrenFuel fuel ch1 ch2 with
          | .error e => .error e
          | .ok ch =>
            .ok (Node.mk (h1.or h2) (if mw1.isEmpty then mw2 else mw1) ch wc ca
              (nfh1.or nfh2) (mnah1.or mnah2))

/-- Wildcard branch of _merge_trees: names must agree, children merge
recursively; otherwise Python or-chooses the side that is set. -/
def mergeWildcardFuel : Nat → Option (String × Node) → Option (String × Node) →
    Except String (Option (String × Node))
  | 0, _, _ => .error "out of fuel"
  | fuel + 1, some (n1, c1), some (n2, c2) =>
    if n1 ≠ n2 then .error "nodes have conflicting wildcards"
    else
      match mergeFuel fuel c1 c2 with
      | .error e => .error e
      | .ok c => .ok (some (n1, c))
  | _ + 1, w1, w2 => .ok (w1.or w2)

/-- Catchall branch of _merge_trees, analogous to the wildcard branch
(including the conclicting typo of the source message). -/
def mergeCatchallFuel : Nat → Option (String × Node) → Option (String × Node) →
    Except String (Option (String × Node))
  | 0, _, _ => .error "out of fuel"
  | fuel + 1, some (n1, c1), some (n2, c2) =>
    if n1 ≠ n2 then .error "nodes have conclicting catchalls"
    else
      match mergeFuel fuel c1 c2 with
      | .error e => .error e
      | .ok c => .ok (some (n1, c))
  | _ + 1, w1, w2 => .ok (w1.or w2)

/-- Keywise union of two key-sorted children lists, merging nodes found
under a key common to both sides. -/
def mergeChildrenFuel : Nat → List (SegKey × Node) → List (SegKey × Node) →
    Except String (List (SegKey × Node))
  | 0, _, _ => .error "out of fuel"
  | _ + 1, [], l2 => .ok l2
  | _ + 1, (k1, v1) :: t1, [] => .ok ((k1, v1) :: t1)
  | fuel + 1, (k1, v1) :: t1, (k2, v2) :: t2 =>
    if SegKey.blt k1 k2 then
      match mergeChildrenFuel fuel t1 ((k2, v2) :: t2) with
      | .error e => .error e
      | .ok r => .ok ((k1, v1) :: r)
    else if SegKey.blt k2 k1 then
      match mergeChildrenFuel fuel ((k1, v1) :: t1) t2 with
      | .error e => .error e
      | .ok r => .ok ((k2, v2) :: r)
    else
      match mergeFuel fuel v1 v2 with
      | .error e => .error e
      | .ok v =>
        match mergeChildrenFuel fuel t1 t2 with
        | .error e => .error e
        | .ok r => .ok ((k1, v) :: r)
end

/-- _merge_trees from tree.py, with fuel strictly above every recursion
depth so the out-of-fuel branch is unreachable; the bound is symmetric in
the two arguments. -/
def _merge_trees (t1 t2 : Node) : Except String Node :=
  mergeFuel (nodeSize t1 + nodeSize t2 + 1) t1 t2

/-- add_route from tree.py: build the single-route tree and merge it in. -/
def add_route (tree : Node) (method : LeafKey) (path : String)
    (handler : Handler) (middleware : List MW) : Except String Node :=
  match _construct_route_tree method path handler middleware with
  | .error e => .error e
  | .ok new_tree => _merge_trees tree new_tree

mutual
/-- _cascade_middleware from tree.py: accumulate node middleware down the
tree, keeping the accumulated stack only on nodes that carry a handler and
clearing it elsewhere. -/
def _cascade_middleware : Node → List MW → Node
  | .mk h mw ch wc ca nfh mnah, mwin =>
    let macc := if mw.isEmpty then mwin else mwin ++ mw
    Node.mk h (if h.isSome then macc else []) (cascadeChildren ch macc)
      (cascadeOpt wc macc) (cascadeOpt ca macc) nfh mnah

/-- Wildcard and catchall recursion of _cascade_middleware. -/
def cascadeOpt : Option (String × Node) → List MW → Option (String × Node)
  | none, _ => none
  | some (n, c), mwin => some (n, _cascade_middleware c mwin)

/-- Children recursion of _cascade_middleware. -/
def cascadeChildren : List (SegKey × Node) → List MW → List (SegKey × Node)
  | [], _ => []
  | (k, c) :: t, mwin => (k, _cascade_middleware c mwin) :: cascadeChildren t mwin
end

/-- mount_tree from tree.py: pre-cascade the child middleware, then merge
directly at the root or under the synthesized prefix chain. -/
def mount_tree (path : String) (parent child : Node) : Except String Node :=
  let child := if !child.middleware.isEmpty then _cascade_middleware child [] else child
  if path = "/" then _merge_trees parent child
  else
    match _construct_sub_tree path child with
    | .error e => .error e
    | .ok sub_tree => _merge_trees parent sub_tree

mutual
/-- finalize_tree from tree.py: cascade the effective 404 and 405 defaults
(a node override replaces the default for its subtree) and the accumulated
middleware stack down through the tree. -/
def finalize_tree : Node → Handler → Handler → List MW → Node
  | .mk h mw ch wc ca nfh mnah, nfhD, mnahD, mwin =>
    let nfhE := nfh.getD nfhD
    let mnahE := mnah.getD mnahD
    let macc := if mw.isEmpty then mwin else mwin ++ mw
    Node.mk h (if macc.isEmpty then mw else macc)
      (finalizeChildren ch nfhE mnahE macc)
      (finalizeOpt wc nfhE mnahE macc) (finalizeOpt ca nfhE mnahE macc)
      (some nfhE) (some mnahE)

/-- Wildcard and catchall recursion of finalize_tree. -/
def finalizeOpt : Option (String × Node) → Handler → Handler → List MW →
    Option (String × Node)
  | none, _, _, _ => none
  | some (n, c), nfhD, mnahD, mwin => some (n, finalize_tree c nfhD mnahD mwin)

/-- Children recursion of finalize_tree. -/
def finalizeChildren : List (SegKey × Node) → Handler → Handler → List MW →
    List (SegKey × Node)
  | [], _, _, _ => []
  | (k, c) :: t, nfhD, mnahD, mwin =>
    (k, finalize_tree c nfhD mnahD mwin) :: finalizeChildren t nfhD mnahD mwin
end

/-- Router facade state from router.py: the accumulated tree and the
finalized flag. -/
structure MuxRouter where
  tree : Node
  finalized : Bool

/-- Router.__init__ with optional error handlers. -/
def MuxRouter.init (nfh mnah : Option Handler) : MuxRouter :=
  { tree := Node.mk none [] [] none none nfh mnah, finalized := false }

/-- Router.method from router.py: registers a route via add_route; a None
method maps to ANY_HTTP. The method body consults neither the finalized
flag nor anything else about the router state. -/
def MuxRouter.method (r : MuxRouter) (m : Option LeafKey) (path : String)
    (handler : Handler) (middleware : List MW) : Except String MuxRouter :=
  match add_route r.tree (m.getD LeafKey.ANY_HTTP) path handler middleware with
  | .error e => .error e
  | .ok t => .ok { r with tree := t }

/-- Router.get wrapper: add_route with the GET token. -/
def MuxRouter.get (r : MuxRouter) (path : String) (handler : Handler)
    (middleware : List MW) : Except String MuxRouter :=
  match add_route r.tree LeafKey.GET path handler middleware with
  | .error e => .error e
  | .ok t => .ok { r with tree := t }

/-- Router.handle wrapper: add_route with the ANY_HTTP token. -/
def MuxRouter.handle (r : MuxRouter) (path : String) (handler : Handler)
    (middleware : List MW) : Except String MuxRouter :=
  match add_route r.tree LeafKey.ANY_HTTP path handler middleware with
  | .error e => .error e
  | .ok t => .ok { r with tree := t }

/-- Router.websocket wrapper: add_route with the WEBSOCKET token. -/
def MuxRouter.websocket (r : MuxRouter) (path : String) (handler : Handler)
    (middleware : List MW) : Except String MuxRouter :=
  match add_route r.tree LeafKey.WEBSOCKET path handler middleware with
  | .error e => .error e
  | .ok t => .ok { r with tree := t }

/-- Router.finalize from router.py: a no-op once the flag is set, an error
without both root error handlers, otherwise finalize_tree with the root
handlers and empty middleware. -/
def MuxRouter.finalize (r : MuxRouter) : Except String MuxRouter :=
  if r.finalized then .ok r
  else
    match r.tree.not_found_handler with
    | none => .error "Router does not have not_found_handler"
    | some nfh =>
      match r.tree.method_not_allowed_handler with
      | none => .error "Router does not have method_not_allowed_handler"
      | some mnah =>
        .ok { tree := finalize_tree r.tree nfh mnah [], finalized := true }

deriving instance DecidableEq for Except

/-- Outcome of the segment loop of find_handler considered on its own:
either the loop hands a node (with accumulated params and route parts) to
the method-resolution step, or it returns early out of the function. -/
inductive TravOut where
  | landed : Node → List (String × String) → List String → TravOut
  | early : Except String FindResult → TravOut

/-- The segment loop of find_handler, returning where it lands instead of
resolving the method leaf; walk is exactly this loop followed by
resolveLeaf (theorem walk_eq_traverse). -/
def traverseLoop : List String → Node → List (String × String) → List String → TravOut
  | [], current, params, parts => .landed current params parts
  | seg :: rest, current, params, parts =>
    match lookupChild current (SegKey.str seg) with
    | some child => traverseLoop rest child params (parts ++ [seg])
    | none =>
      match current.wildcard with
      | some (name, child) =>
        traverseLoop rest child (dictInsert params name seg)
          (parts ++ ["\x7b" ++ name ++ "\x7d"])
      | none =>
        match current.catchall with
        | some (name, child) =>
          .landed child (dictInsert params name (joinSlash (seg :: rest)))
            (parts ++ ["\x7b" ++ name ++ "...\x7d"])
        | none =>
          .early (match current.not_found_handler with
            | none => .error "No not found handler set"
            | some n => .ok (n, [], [], ""))

/-- Convenience: look a path and method up in a tree built by the fallible
tree algebra. -/
def lookupIn (t : Except String Node) (path : String) (m : LeafKey) :
    Except String FindResult :=
  t.bind fun tree => find_handler path m tree

mutual
/-- Every node of the tree carries both error handlers (clause one of the
error-handler totality property). -/
def allSet : Node → Bool
  | .mk _ _ ch wc ca nfh mnah =>
    nfh.isSome && mnah.isSome && allSetChildren ch && allSetOpt wc && allSetOpt ca

/-- allSet on an optional wildcard or catchall payload. -/
def allSetOpt : Option (String × Node) → Bool
  | none => true
  | some (_, c) => allSet c

/-- allSet on a children list. -/
def allSetChildren : List (SegKey × Node) → Bool
  | [] => true
  | (_, c) :: t => allSet c && allSetChildren t
end

mutual
/-- Middleware appears only on childless nodes (method-token leaves):
every node that has children, a wildcard or a catchall carries an empty
middleware tuple. Trees built purely from route registrations satisfy
this; a use() call on a router places middleware on an inner node and
violates it. -/
def mwLeafOnly : Node → Bool
  | .mk _ mw ch wc ca _ _ =>
    (mw.isEmpty || (ch.isEmpty && wc.isNone && ca.isNone)) &&
      mwLeafOnlyChildren ch && mwLeafOnlyOpt wc && mwLeafOnlyOpt ca

/-- mwLeafOnly on an optional wildcard or catchall payload. -/
def mwLeafOnlyOpt : Option (String × Node) → Bool
  | none => true
  | some (_, c) => mwLeafOnly c

/-- mwLeafOnly on a children list. -/
def mwLeafOnlyChildren : List (SegKey × Node) → Bool
  | [] => true
  | (_, c) :: t => mwLeafOnly c && mwLeafOnlyChildren t
end

/-- Keys of a children list are strictly increasing. -/
def keysSorted : List (SegKey × Node) → Bool
  | [] => true
  | [_] => true
  | a :: b :: t => SegKey.blt a.1 b.1 && keysSorted (b :: t)

/-- The key k is a strict lower bound for the keys of a sorted children
list (it suffices to bound the head). -/
def keyLB (k : SegKey) : List (SegKey × Node) → Bool
  | [] => true
  | (k2, _) :: _ => SegKey.blt k k2

mutual
/-- Canonical-form invariant for the association-list representation of
FrozenDict children: keys strictly sorted at every node. Sorted lists are
in bijection with the Python dicts they represent, so structural equality
of well-formed trees coincides with Python dataclass equality. -/
def nodeWF : Node → Bool
  | .mk _ _ ch wc ca _ _ =>
    keysSorted ch && childrenWF ch && nodeWFOpt wc && nodeWFOpt ca

/-- nodeWF on an optional wildcard or catchall payload. -/
def nodeWFOpt : Option (String × Node) → Bool
  | none => true
  | some (_, c) => nodeWF c

/-- nodeWF on a children list. -/
def childrenWF : List (SegKey × Node) → Bool
  | [] => true
  | (_, c) :: t => nodeWF c && childrenWF t
end

/-- Concrete tree for the wildcard-empty-segment claim: only the route
GET /user/(id) with handler 21, finalized with defaults 22 and 23. -/
def c10Tree : Except String Node :=
  (add_route emptyNode LeafKey.GET "/user/\x7bid\x7d" 21 []).map
    fun t => finalize_tree t 22 23 []

/-- Concrete tree for the catchall-zero-segment claim: only the route
GET /static/(path...) with handler 31, finalized with defaults 32, 33. -/
def c3Tree : Except String Node :=
  (add_route emptyNode LeafKey.GET "/static/\x7bpath...\x7d" 31 []).map
    fun t => finalize_tree t 32 33 []

/-- Concrete tree for the priority-law claim: routes GET /x/(w)/a with
handler 41, GET /x/(c...) with handler 42 and GET /x/e with handler 43,
finalized with defaults 44 and 45. -/
def c4Tree : Except String Node :=
  (add_route emptyNode LeafKey.GET "/x/\x7bw\x7d/a" 41 []).bind fun t =>
  (add_route t LeafKey.GET "/x/\x7bc...\x7d" 42 []).bind fun t =>
  (add_route t LeafKey.GET "/x/e" 43 []).map fun t =>
  finalize_tree t 44 45 []

/-- Scenario 1 of the spec, with the routes exactly as the claim lists
them (home under GET): home 51, adminHome 52, rename 53, tx 54, static 55,
root 404 NF 56, root 405 MNA 57, admin-subtree 404 ANF 58, static-subtree
405 SNA 59, middleware A 61, U 62, R 63. The subtree error handlers are
installed the way Router.mount does it: a subrouter root node carrying
only the handler override is mounted under the prefix. -/
def scenario1Tree : Except String Node :=
  (add_route (Node.mk none [] [] none none (some 56) (some 57))
      LeafKey.GET "/" 51 []).bind fun t =>
  (add_route t LeafKey.GET "/admin" 52 [61]).bind fun t =>
  (add_route t LeafKey.POST "/admin/user/\x7bid\x7d/rename" 53 [61, 62, 63]).bind fun t =>
  (add_route t LeafKey.GET "/admin/user/\x7bid\x7d/transaction/\x7btx\x7d" 54 [61, 62]).bind fun t =>
  (add_route t LeafKey.GET "/static/\x7bpath...\x7d" 55 []).bind fun t =>
  (mount_tree "/admin" t (Node.mk none [] [] none none (some 58) none)).bind fun t =>
  (mount_tree "/static" t (Node.mk none [] [] none none none (some 59))).map fun t =>
  finalize_tree t 56 57 []

/-- Concrete node for the ANY_HTTP-serves-websocket witness: one ANY_HTTP
leaf with handler 71 and middleware 72, no WEBSOCKET leaf. -/
def c9Node : Node :=
  Node.mk none []
    [(SegKey.leaf LeafKey.ANY_HTTP, Node.mk (some 71) [72] [] none none none none)]
    none none (some 73) (some 74)

/-- Concrete finalized tree for the 404/405 witness: route GET /a with
handler 91, finalized with defaults 92 and 93. -/
def c5Tree : Except String Node :=
  (add_route emptyNode LeafKey.GET "/a" 91 []).map fun t =>
  finalize_tree t 92 93 []

/-- Concrete middleware-on-inner-node tree for the finalize-idempotence
counterexample: the root carries middleware 5 and has one child. -/
def c1Tree : Node :=
  Node.mk none [5] [(SegKey.str "a", emptyNode)] none none none none

/-- Probe used to separate the two sides of the finalize-idempotence
counterexample: the middleware recorded on the child node named a. -/
def c1Probe (t : Node) : Option (List MW) :=
  (lookupChild t (SegKey.str "a")).map Node.middleware

/-- Witness tree for the amended finalize idempotence: middleware sits
only on the childless method leaf, as add_route places it. -/
def c1WitnessTree : Node :=
  Node.mk none []
    [(SegKey.str "a",
      Node.mk none [] [(SegKey.leaf LeafKey.GET,
        Node.mk (some 1) [5] [] none none none none)] none none none none)]
    none none none none

/-- Left node of the merge-commutativity counterexample: non-empty node
middleware, nothing else. -/
def c2a : Node := Node.mk none [5] [] none none none none

/-- Right node of the merge-commutativity counterexample: the empty node. -/
def c2b : Node := emptyNode

/-- Root wrapping c9Node under the empty segment so that the path / lands
on it. -/
def c9Root : Node :=
  Node.mk none [] [(SegKey.str "", c9Node)] none none (some 73) (some 74)

/-- The c5Tree behind its Except wrapper. -/
def c5Root : Node :=
  match c5Tree with
  | .ok t => t
  | .error _ => emptyNode

/-- The node where the traversal of path /a lands inside c5Root. -/
def c5ANode : Node :=
  match lookupChild c5Root (SegKey.str "a") with
  | some n => n
  | none => emptyNode

/-- Tree obtained by registering GET /y with handler 83 on an empty tree;
used to witness registration after finalize. -/
def c7wTree : Node :=
  match add_route emptyNode LeafKey.GET "/y" 83 [] with
  | .ok t => t
  | .error _ => emptyNode

/-- Left node of the merge-commutativity witness: a handler only. -/
def c2wa : Node := Node.mk (some 1) [] [] none none none none

/-- Right node of the merge-commutativity witness: a not-found handler
only. -/
def c2wb : Node := Node.mk none [] [] none none (some 2) none

/-- Merge of c2wa and c2wb, in either order. -/
def c2wr : Node := Node.mk (some 1) [] [] none none (some 2) none


/-- The walk loop of find_handler factors through traverseLoop followed by
method resolution at the landing node. -/
theorem walk_eq_traverse (method : LeafKey) :
    ∀ (segs : List String) (current : Node) (params : List (String × String))
      (parts : List String),
      walk method segs current params parts =
        match traverseLoop segs current params parts with
        | .landed n p q => resolveLeaf method n p q
        | .early r => r := by
  intro segs
  induction segs with
  | nil => intro current params parts; simp [walk, traverseLoop]
  | cons seg rest ih =>
    intro current params parts
    simp only [walk, traverseLoop]
    cases h1 : lookupChild current (SegKey.str seg) with
    | some child => simpa using ih child params (parts ++ [seg])
    | none =>
      cases h2 : current.wildcard with
      | some wc =>
        obtain ⟨name, child⟩ := wc
        simpa using ih child (dictInsert params name seg)
          (parts ++ ["\x7b" ++ name ++ "\x7d"])
      | none =>
        cases h3 : current.catchall with
        | some ca => obtain ⟨name, child⟩ := ca; simp
        | none => cases current.not_found_handler <;> simp

/-- Claim C10: a wildcard matches the empty segment. In the finalized tree
holding only GET /user/(id) with handler 21, the lookup of GET /user/
(trailing slash) returns handler 21 with params binding id to the empty
string and route pattern /user/(id). -/
theorem wildcard_matches_empty_segment :
    lookupIn c10Tree "/user/" LeafKey.GET =
      .ok (21, [], [("id", "")], "/user/\x7bid\x7d") := by decide

/-- Claim C3, counterexample: in the finalized tree holding only
GET /static/(path...) with handler 31 and not-found default 32, the lookup
of GET /static (exactly the catchall prefix, no trailing slash) returns
the not-found handler 32 with empty params, not handler 31 with an empty
path binding as the claim states. -/
theorem catchall_prefix_without_slash_is_not_found :
    lookupIn c3Tree "/static" LeafKey.GET = .ok (32, [], [], "") ∧
    (32 : Handler) ≠ 31 := by decide

/-- Claim C3 (amended): the catchall binds the empty string for the path
/static/ (trailing slash, one empty remaining segment); the path /static
without the trailing slash stops at a node with no method children and
returns the not-found handler with empty params and route. -/
theorem catchall_zero_segment_binding :
    lookupIn c3Tree "/static/" LeafKey.GET =
      .ok (31, [], [("path", "")], "/static/\x7bpath...\x7d") ∧
    lookupIn c3Tree "/static" LeafKey.GET = .ok (32, [], [], "") :=
  ⟨by decide, by decide⟩

/-- Claim C4, counterexample: in the finalized tree holding GET /x/(w)/a
(handler 41) and GET /x/(c...) (handler 42), the lookup of GET /x/y/b
returns the not-found handler 44, not the catchall handler 42: the
traversal commits to the wildcard and never backtracks to the catchall. -/
theorem no_backtracking_to_catchall :
    lookupIn c4Tree "/x/y/b" LeafKey.GET = .ok (44, [], [], "") ∧
    (44 : Handler) ≠ 42 := by decide

/-- Claim C4 (amended): at each level an applicable exact child beats the
wildcard, and a present wildcard beats the catchall unconditionally, the
catchall firing only at a node that has no matching exact child and no
wildcard at all (the traversal is greedy, without backtracking): GET /x/e resolves exactly,
GET /x/y/a resolves through the wildcard, and GET /x/y/b, whose wildcard
continuation cannot complete, yields the not-found handler rather than
falling back to the catchall. -/
theorem priority_law_greedy :
    lookupIn c4Tree "/x/e" LeafKey.GET = .ok (43, [], [], "/x/e") ∧
    lookupIn c4Tree "/x/y/a" LeafKey.GET =
      .ok (41, [], [("w", "y")], "/x/\x7bw\x7d/a") ∧
    lookupIn c4Tree "/x/y/b" LeafKey.GET = .ok (44, [], [], "") :=
  ⟨by decide, by decide, by decide⟩

/-- Claim C8, counterexample: in the scenario 1 router with home (51)
registered under GET as the claim lists it, the lookup of PATCH / returns
the root method-not-allowed handler 57 with empty route, not handler 51. -/
theorem scenario1_patch_root_counterexample :
    lookupIn scenario1Tree "/" LeafKey.PATCH = .ok (57, [], [], "") ∧
    (57 : Handler) ≠ 51 := by decide

/-- Claim C8 (amended): with home registered under GET, the lookup of
PATCH / hits a node whose only leaf is GET, so it returns the root
method-not-allowed handler MNA (57) with empty middleware, empty params
and empty route pattern. (The repository registers home under ANY_HTTP,
in which case PATCH / would return home.) -/
theorem scenario1_patch_root :
    lookupIn scenario1Tree "/" LeafKey.PATCH = .ok (57, [], [], "") := by decide

/-- Claim C9: the ANY_HTTP fallback applies to websocket lookups as well.
If the traversal of a path lands on a node with an ANY_HTTP leaf carrying
a handler and no WEBSOCKET leaf, find_handler with the WEBSOCKET method
returns that handler. -/
theorem any_http_serves_websocket (path : String) (tree current leaf : Node)
    (params : List (String × String)) (parts : List String) (h : Handler)
    (ht : traverseLoop (splitPath path) tree [] [] = .landed current params parts)
    (hws : lookupChild current (SegKey.leaf LeafKey.WEBSOCKET) = none)
    (hany : lookupChild current (SegKey.leaf LeafKey.ANY_HTTP) = some leaf)
    (hh : leaf.handler = some h) :
    find_handler path LeafKey.WEBSOCKET tree =
      .ok (h, leaf.middleware, params, "/" ++ joinSlash parts) := by
  unfold find_handler
  rw [walk_eq_traverse, ht]
  simp [resolveLeaf, hws, hany, hh, Option.or]

/-- Witness for any_http_serves_websocket at the concrete node c9Root. -/
theorem any_http_serves_websocket_witness :
    find_handler "/" LeafKey.WEBSOCKET c9Root = .ok (71, [72], [], "/") :=
  any_http_serves_websocket "/" c9Root c9Node
    (Node.mk (some 71) [72] [] none none none none) [] [""] 71 rfl rfl rfl rfl

/-- Claim C5: the 404/405 distinction. When the traversal lands on a node
that has neither the requested method nor ANY_HTTP among its leaves, the
lookup returns the method-not-allowed handler with the accumulated params
and empty route if the node has at least one method-token child, and the
not-found handler with empty params and empty route otherwise. -/
theorem distinction_404_405 (path : String) (method : LeafKey)
    (tree n : Node) (params : List (String × String)) (parts : List String)
    (m nf : Handler)
    (ht : traverseLoop (splitPath path) tree [] [] = .landed n params parts)
    (hm : lookupChild n (SegKey.leaf method) = none)
    (ha : lookupChild n (SegKey.leaf LeafKey.ANY_HTTP) = none)
    (hmna : n.method_not_allowed_handler = some m)
    (hnf : n.not_found_handler = some nf) :
    find_handler path method tree =
      if hasLeafKeyChild n then .ok (m, [], params, "") else .ok (nf, [], [], "") := by
  unfold find_handler
  rw [walk_eq_traverse, ht]
  simp only [resolveLeaf, hm, ha, Option.or]
  cases hk : hasLeafKeyChild n <;> simp [hmna, hnf, hk]

/-- Witness for distinction_404_405: DELETE /a in the finalized tree with
only GET /a yields the 405 handler 93. -/
theorem distinction_404_405_witness :
    find_handler "/a" LeafKey.DELETE c5Root = .ok (93, [], [], "") := by
  have h := distinction_404_405 "/a" LeafKey.DELETE c5Root c5ANode [] ["a"]
    93 92 rfl rfl rfl rfl rfl
  rw [h]
  rfl

/-- Claim C7, counterexample: registration after finalize is not rejected.
Finalizing a fresh router and then registering GET /y succeeds (no
build-time error) and changes the tree: the child y is absent right after
finalize and present after the registration, while the finalized flag
stays true. -/
theorem registration_after_finalize_not_prevented :
    ((MuxRouter.init (some 81) (some 82)).finalize.bind
      (fun r => r.method (some LeafKey.GET) "/y" 83 [])).map
      (fun r => (r.finalized, (lookupChild r.tree (SegKey.str "y")).isSome)) =
        .ok (true, true) ∧
    (MuxRouter.init (some 81) (some 82)).finalize.map
      (fun r => (lookupChild r.tree (SegKey.str "y")).isSome) = .ok false :=
  ⟨rfl, rfl⟩

/-- Claim C7 (amended): Router.method consults nothing about the finalized
state: on a finalized router it simply performs add_route, and whenever
that merge succeeds the registration succeeds and replaces the tree, the
flag staying true. The per-method wrappers delegate to add_route in the
same unguarded way. -/
theorem method_after_finalize_registers (r : MuxRouter) (m : Option LeafKey)
    (path : String) (h : Handler) (mw : List MW) (t : Node)
    (hfin : r.finalized = true)
    (hadd : add_route r.tree (m.getD LeafKey.ANY_HTTP) path h mw = .ok t) :
    r.method m path h mw = .ok { tree := t, finalized := true } := by
  unfold MuxRouter.method
  rw [hadd]
  cases r with
  | mk tr fin => simp_all

/-- Witness for method_after_finalize_registers on a concrete finalized
router state. -/
theorem method_after_finalize_registers_witness :
    MuxRouter.method ⟨emptyNode, true⟩ (some LeafKey.GET) "/y" 83 [] =
      .ok ⟨c7wTree, true⟩ :=
  method_after_finalize_registers ⟨emptyNode, true⟩ (some LeafKey.GET) "/y" 83 []
    c7wTree rfl rfl

mutual
/-- finalize_tree sets both error handlers on every node. -/
theorem allSet_finalize (t : Node) (d1 d2 : Handler) (mw : List MW) :
    allSet (finalize_tree t d1 d2 mw) = true := by
  cases t with
  | mk h m ch wc ca nfh mnah =>
    simp [finalize_tree, allSet, allSetChildren_finalize, allSetOpt_finalize]

/-- allSet_finalize for the optional wildcard and catchall payloads. -/
theorem allSetOpt_finalize (o : Option (String × Node)) (d1 d2 : Handler)
    (mw : List MW) : allSetOpt (finalizeOpt o d1 d2 mw) = true := by
  cases o with
  | none => simp [finalizeOpt, allSetOpt]
  | some p =>
    cases p with
    | mk n c => simp [finalizeOpt, allSetOpt, allSet_finalize]

/-- allSet_finalize for children lists. -/
theorem allSetChildren_finalize (l : List (SegKey × Node)) (d1 d2 : Handler)
    (mw : List MW) : allSetChildren (finalizeChildren l d1 d2 mw) = true := by
  cases l with
  | nil => simp [finalizeChildren, allSetChildren]
  | cons hd tl =>
    cases hd with
    | mk k c =>
      simp [finalizeChildren, allSetChildren, allSet_finalize,
        allSetChildren_finalize]
end

/-- A child found in an allSet children list is itself allSet. -/
theorem allSetChildren_get (k : SegKey) :
    ∀ (l : List (SegKey × Node)) (c : Node), allSetChildren l = true →
      childrenGet k l = some c → allSet c = true := by
  intro l
  induction l with
  | nil => intro c _ hg; simp [childrenGet] at hg
  | cons hd tl ih =>
    intro c hall hg
    cases hd with
    | mk k1 c1 =>
      simp [allSetChildren] at hall
      simp [childrenGet] at hg
      by_cases hk : k1 = k
      · rw [if_pos hk] at hg
        cases hg
        exact hall.1
      · rw [if_neg hk] at hg
        exact ih c hall.2 hg

/-- An allSet node carries both error handlers. -/
theorem allSet_fields (n : Node) (h : allSet n = true) :
    n.not_found_handler.isSome ∧ n.method_not_allowed_handler.isSome := by
  cases n with
  | mk h1 m ch wc ca nfh mnah =>
    simp [allSet] at h
    obtain ⟨⟨⟨⟨ha, hb⟩, _⟩, _⟩, _⟩ := h
    simp [Node.not_found_handler, Node.method_not_allowed_handler, ha, hb]

/-- allSet is inherited by exact-match children. -/
theorem allSet_lookup (n : Node) (k : SegKey) (c : Node) (h : allSet n = true)
    (hl : lookupChild n k = some c) : allSet c = true := by
  cases n with
  | mk h1 m ch wc ca nfh mnah =>
    simp [allSet] at h
    simp [lookupChild, Node.children] at hl
    obtain ⟨⟨⟨_, hch⟩, _⟩, _⟩ := h
    exact allSetChildren_get k ch c hch hl

/-- allSet is inherited by the wildcard child. -/
theorem allSet_wildcard (n : Node) (name : String) (c : Node)
    (h : allSet n = true) (hw : n.wildcard = some (name, c)) : allSet c = true := by
  cases n with
  | mk h1 m ch wc ca nfh mnah =>
    simp [allSet] at h
    simp [Node.wildcard] at hw
    obtain ⟨⟨⟨_, _⟩, hwc⟩, _⟩ := h
    rw [hw] at hwc
    simpa [allSetOpt] using hwc

/-- allSet is inherited by the catchall child. -/
theorem allSet_catchall (n : Node) (name : String) (c : Node)
    (h : allSet n = true) (hw : n.catchall = some (name, c)) : allSet c = true := by
  cases n with
  | mk h1 m ch wc ca nfh mnah =>
    simp [allSet] at h
    simp [Node.catchall] at hw
    obtain ⟨⟨⟨_, _⟩, _⟩, hca⟩ := h
    rw [hw] at hca
    simpa [allSetOpt] using hca

/-- Method resolution never reaches an error branch on an allSet node. -/
theorem resolveLeaf_ok (method : LeafKey) (n : Node)
    (params : List (String × String)) (parts : List String)
    (h : allSet n = true) : ∃ r, resolveLeaf method n params parts = .ok r := by
  obtain ⟨hnf, hmna⟩ := allSet_fields n h
  obtain ⟨nf, hnf⟩ := Option.isSome_iff_exists.mp hnf
  obtain ⟨mna, hmna⟩ := Option.isSome_iff_exists.mp hmna
  unfold resolveLeaf
  cases hx : (lookupChild n (SegKey.leaf method)).or
      (lookupChild n (SegKey.leaf LeafKey.ANY_HTTP)) with
  | none =>
    cases hk : hasLeafKeyChild n <;> simp [hk, hnf, hmna]
  | some leaf =>
    cases hh : leaf.handler <;> simp [hh, hnf]

/-- The traversal loop never reaches an error branch when every node in
sight is allSet. -/
theorem walk_ok (method : LeafKey) :
    ∀ (segs : List String) (n : Node) (params : List (String × String))
      (parts : List String), allSet n = true →
      ∃ r, walk method segs n params parts = .ok r := by
  intro segs
  induction segs with
  | nil => intro n params parts h; exact resolveLeaf_ok method n params parts h
  | cons seg rest ih =>
    intro n params parts h
    simp only [walk]
    cases h1 : lookupChild n (SegKey.str seg) with
    | some child => exact ih child params (parts ++ [seg]) (allSet_lookup n _ child h h1)
    | none =>
      cases h2 : n.wildcard with
      | some wc =>
        obtain ⟨name, child⟩ := wc
        exact ih child _ _ (allSet_wildcard n name child h h2)
      | none =>
        cases h3 : n.catchall with
        | some ca =>
          obtain ⟨name, child⟩ := ca
          exact resolveLeaf_ok method child _ _ (allSet_catchall n name child h h3)
        | none =>
          obtain ⟨hnf, _⟩ := allSet_fields n h
          obtain ⟨nf, hnf⟩ := Option.isSome_iff_exists.mp hnf
          simp [hnf]

/-- Claim C6: error-handler totality. After finalize_tree with any
defaults, every node of the tree carries both error handlers, and
find_handler returns a handler (never an error) for every path and
method. -/
theorem error_handler_totality (t : Node) (d1 d2 : Handler) (mw : List MW)
    (path : String) (method : LeafKey) :
    allSet (finalize_tree t d1 d2 mw) = true ∧
    ∃ r, find_handler path method (finalize_tree t d1 d2 mw) = .ok r :=
  ⟨allSet_finalize t d1 d2 mw,
    walk_ok method (splitPath path) _ [] [] (allSet_finalize t d1 d2 mw)⟩

mutual
/-- Applying finalize_tree twice with the same defaults and empty incoming
middleware is the identity on the once-finalized tree, provided middleware
sits only on childless nodes. -/
theorem finalize_idem_aux (t : Node) (d1 d2 : Handler) (hP : mwLeafOnly t = true) :
    finalize_tree (finalize_tree t d1 d2 []) d1 d2 [] = finalize_tree t d1 d2 [] := by
  cases t with
  | mk h mw ch wc ca nfh mnah =>
    simp only [mwLeafOnly, Bool.and_eq_true] at hP
    obtain ⟨⟨⟨hcond, hch⟩, hwc⟩, hca⟩ := hP
    cases mw with
    | nil =>
      simp [finalize_tree, finalize_idem_children ch _ _ hch,
        finalize_idem_opt wc _ _ hwc, finalize_idem_opt ca _ _ hca]
    | cons m ms =>
      cases ch with
      | cons a b => simp at hcond
      | nil =>
        cases wc with
        | some w => simp at hcond
        | none =>
          cases ca with
          | some cc => simp at hcond
          | none => simp [finalize_tree, finalizeChildren, finalizeOpt]

/-- finalize_idem_aux for the optional wildcard and catchall payloads. -/
theorem finalize_idem_opt (o : Option (String × Node)) (d1 d2 : Handler)
    (hP : mwLeafOnlyOpt o = true) :
    finalizeOpt (finalizeOpt o d1 d2 []) d1 d2 [] = finalizeOpt o d1 d2 [] := by
  cases o with
  | none => simp [finalizeOpt]
  | some p =>
    cases p with
    | mk n c =>
      simp only [mwLeafOnlyOpt] at hP
      simp [finalizeOpt, finalize_idem_aux c _ _ hP]

/-- finalize_idem_aux for children lists. -/
theorem finalize_idem_children (l : List (SegKey × Node)) (d1 d2 : Handler)
    (hP : mwLeafOnlyChildren l = true) :
    finalizeChildren (finalizeChildren l d1 d2 []) d1 d2 [] =
      finalizeChildren l d1 d2 [] := by
  cases l with
  | nil => simp [finalizeChildren]
  | cons hd tl =>
    cases hd with
    | mk k c =>
      simp only [mwLeafOnlyChildren, Bool.and_eq_true] at hP
      simp [finalizeChildren, finalize_idem_aux c _ _ hP.1,
        finalize_idem_children tl _ _ hP.2]
end

/-- Claim C1, counterexample: finalize is not idempotent on a tree whose
root carries non-empty middleware and has a child. Refinalizing c1Tree
(root middleware 5, one child a) changes the tree: the child ends up with
middleware 5, 5 instead of 5. -/
theorem finalize_not_idempotent :
    finalize_tree (finalize_tree c1Tree 1 2 []) 1 2 [] ≠ finalize_tree c1Tree 1 2 [] :=
  fun h => absurd (congrArg c1Probe h) (by decide)

/-- Claim C1 (amended): finalize is idempotent for trees in which only
childless nodes carry non-empty middleware (as is the case for trees built
purely from route registrations, where middleware sits on method leaves):
with the same defaults and empty incoming middleware, the second
application returns the first result unchanged. -/
theorem finalize_idempotent_leaf_middleware (t : Node) (d1 d2 : Handler)
    (hP : mwLeafOnly t = true) :
    finalize_tree (finalize_tree t d1 d2 []) d1 d2 [] = finalize_tree t d1 d2 [] :=
  finalize_idem_aux t d1 d2 hP

/-- Witness for finalize_idempotent_leaf_middleware on a tree carrying
middleware on its method leaf only. -/
theorem finalize_idempotent_leaf_middleware_witness :
    mwLeafOnly c1WitnessTree = true ∧
    finalize_tree (finalize_tree c1WitnessTree 1 2 []) 1 2 [] =
      finalize_tree c1WitnessTree 1 2 [] :=
  ⟨rfl, finalize_idempotent_leaf_middleware c1WitnessTree 1 2 rfl⟩


theorem charsLt_asymm : ∀ (a b : List Char), charsLt a b = true → charsLt b a = false := by
  intro a
  induction a with
  | nil =>
    intro b h
    cases b with
    | nil => simp [charsLt] at h
    | cons x xs => simp [charsLt]
  | cons x xs ih =>
    intro b h
    cases b with
    | nil => simp [charsLt] at h
    | cons y ys =>
      simp only [charsLt] at h ⊢
      by_cases h1 : x < y
      · rw [if_neg (lt_asymm h1), if_neg fun he => absurd he.symm (ne_of_lt h1)]
      · rw [if_neg h1] at h
        by_cases h2 : x = y
        · rw [if_pos h2] at h
          subst h2
          rw [if_neg (lt_irrefl x), if_pos rfl]
          exact ih ys h
        · rw [if_neg h2] at h
          exact absurd h (by simp)

theorem charsLt_conn : ∀ (a b : List Char), charsLt a b = false →
    charsLt b a = false → a = b := by
  intro a
  induction a with
  | nil =>
    intro b h1 h2
    cases b with
    | nil => rfl
    | cons y ys => simp [charsLt] at h1
  | cons x xs ih =>
    intro b h1 h2
    cases b with
    | nil => simp [charsLt] at h2
    | cons y ys =>
      simp only [charsLt] at h1 h2
      have hxy : ¬ x < y := by
        intro hc
        rw [if_pos hc] at h1
        exact absurd h1 (by simp)
      have hyx : ¬ y < x := by
        intro hc
        rw [if_pos hc] at h2
        exact absurd h2 (by simp)
      have hx : x = y := le_antisymm (not_lt.mp hyx) (not_lt.mp hxy)
      subst hx
      rw [if_neg hxy, if_pos rfl] at h1 h2
      rw [ih ys h1 h2]

theorem toIdx_inj : ∀ (k1 k2 : LeafKey), k1.toIdx = k2.toIdx → k1 = k2 := by
  intro k1 k2 h
  cases k1 <;> cases k2 <;> simp_all [LeafKey.toIdx]

theorem blt_asymm : ∀ (a b : SegKey), SegKey.blt a b = true →
    SegKey.blt b a = false := by
  intro a b h
  cases a with
  | str s1 =>
    cases b with
    | str s2 => simpa [SegKey.blt] using charsLt_asymm _ _ (by simpa [SegKey.blt] using h)
    | leaf k2 => simp [SegKey.blt]
  | leaf k1 =>
    cases b with
    | str s2 => simp [SegKey.blt] at h
    | leaf k2 =>
      simp [SegKey.blt] at h ⊢
      omega

theorem blt_conn : ∀ (a b : SegKey), SegKey.blt a b = false →
    SegKey.blt b a = false → a = b := by
  intro a b h1 h2
  cases a with
  | str s1 =>
    cases b with
    | str s2 =>
      have := charsLt_conn s1.data s2.data (by simpa [SegKey.blt] using h1)
        (by simpa [SegKey.blt] using h2)
      cases s1
      cases s2
      simp_all
    | leaf k2 => simp [SegKey.blt] at h1
  | leaf k1 =>
    cases b with
    | str s2 => simp [SegKey.blt] at h2
    | leaf k2 =>
      simp [SegKey.blt] at h1 h2
      exact congrArg SegKey.leaf (toIdx_inj k1 k2 (by omega))

theorem conflictingOpt_or_comm (o1 o2 : Option Handler)
    (h : conflictingOpt o1 o2 = false) : o1.or o2 = o2.or o1 := by
  cases o1 <;> cases o2 <;> simp_all [conflictingOpt, Option.or]

theorem merge_mw_eq (mw1 mw2 : List MW)
    (h1 : (!mw2.isEmpty && mw1 != mw2) = false)
    (h2 : (!mw1.isEmpty && mw2 != mw1) = false) : mw1 = mw2 := by
  by_cases he : mw1 = mw2
  · exact he
  · rw [bne_iff_ne.mpr he, Bool.and_true] at h1
    rw [bne_iff_ne.mpr (Ne.symm he), Bool.and_true] at h2
    simp at h1 h2
    rw [h1, h2]

theorem keysSorted_tail (a : SegKey × Node) (t : List (SegKey × Node))
    (h : keysSorted (a :: t) = true) : keysSorted t = true := by
  cases t with
  | nil => rfl
  | cons b t2 =>
    simp [keysSorted] at h
    exact h.2


mutual
theorem mergeFuel_comm (fuel : Nat) (a b ra rb : Node)
    (hwa : nodeWF a = true) (hwb : nodeWF b = true)
    (hf : mergeFuel fuel a b = .ok ra) (hg : mergeFuel fuel b a = .ok rb) :
    ra = rb := by
  cases fuel with
  | zero => simp [mergeFuel] at hf
  | succ fuel =>
    cases a with
    | mk h1 mw1 ch1 wc1 ca1 nfh1 mnah1 =>
    cases b with
    | mk h2 mw2 ch2 wc2 ca2 nfh2 mnah2 =>
    simp only [nodeWF, Bool.and_eq_true] at hwa hwb
    obtain ⟨⟨⟨hs1, hc1⟩, hw1⟩, hx1⟩ := hwa
    obtain ⟨⟨⟨hs2, hc2⟩, hw2⟩, hx2⟩ := hwb
    simp only [mergeFuel] at hf hg
    by_cases c1 : conflictingOpt h1 h2 = true
    · rw [if_pos c1] at hf
      simp at hf
    rw [if_neg c1] at hf
    by_cases c2 : conflictingOpt nfh1 nfh2 = true
    · rw [if_pos c2] at hf
      simp at hf
    rw [if_neg c2] at hf
    by_cases c3 : conflictingOpt mnah1 mnah2 = true
    · rw [if_pos c3] at hf
      simp at hf
    rw [if_neg c3] at hf
    by_cases c4 : (!mw2.isEmpty && mw1 != mw2) = true
    · rw [if_pos c4] at hf
      simp at hf
    rw [if_neg c4] at hf
    by_cases d1 : conflictingOpt h2 h1 = true
    · rw [if_pos d1] at hg
      simp at hg
    rw [if_neg d1] at hg
    by_cases d2 : conflictingOpt nfh2 nfh1 = true
    · rw [if_pos d2] at hg
      simp at hg
    rw [if_neg d2] at hg
    by_cases d3 : conflictingOpt mnah2 mnah1 = true
    · rw [if_pos d3] at hg
      simp at hg
    rw [if_neg d3] at hg
    by_cases d4 : (!mw1.isEmpty && mw2 != mw1) = true
    · rw [if_pos d4] at hg
      simp at hg
    rw [if_neg d4] at hg
    cases hwcf : mergeWildcardFuel fuel wc1 wc2 with
    | error e => rw [hwcf] at hf; simp at hf
    | ok wcv1 =>
    rw [hwcf] at hf
    cases hwcg : mergeWildcardFuel fuel wc2 wc1 with
    | error e => rw [hwcg] at hg; simp at hg
    | ok wcv2 =>
    rw [hwcg] at hg
    cases hcaf : mergeCatchallFuel fuel ca1 ca2 with
    | error e => rw [hcaf] at hf; simp at hf
    | ok cav1 =>
    rw [hcaf] at hf
    cases hcag : mergeCatchallFuel fuel ca2 ca1 with
    | error e => rw [hcag] at hg; simp at hg
    | ok cav2 =>
    rw [hcag] at hg
    cases hchf : mergeChildrenFuel fuel ch1 ch2 with
    | error e => rw [hchf] at hf; simp at hf
    | ok chv1 =>
    rw [hchf] at hf
    cases hchg : mergeChildrenFuel fuel ch2 ch1 with
    | error e => rw [hchg] at hg; simp at hg
    | ok chv2 =>
    rw [hchg] at hg
    simp only [Except.ok.injEq] at hf hg
    subst hf
    subst hg
    have e1 : h1.or h2 = h2.or h1 :=
      conflictingOpt_or_comm h1 h2 (by simpa using c1)
    have e2 : nfh1.or nfh2 = nfh2.or nfh1 :=
      conflictingOpt_or_comm nfh1 nfh2 (by simpa using c2)
    have e3 : mnah1.or mnah2 = mnah2.or mnah1 :=
      conflictingOpt_or_comm mnah1 mnah2 (by simpa using c3)
    have e4 : mw1 = mw2 := merge_mw_eq mw1 mw2 (by simpa using c4) (by simpa using d4)
    have e5 : wcv1 = wcv2 :=
      mergeWildcardFuel_comm fuel wc1 wc2 wcv1 wcv2 hw1 hw2 hwcf hwcg
    have e6 : cav1 = cav2 :=
      mergeCatchallFuel_comm fuel ca1 ca2 cav1 cav2 hx1 hx2 hcaf hcag
    have e7 : chv1 = chv2 :=
      mergeChildrenFuel_comm fuel ch1 ch2 chv1 chv2 hs1 hc1 hs2 hc2 hchf hchg
    rw [e1, e2, e3, e4, e5, e6, e7]

theorem mergeWildcardFuel_comm (fuel : Nat)
    (o1 o2 : Option (String × Node)) (r1 r2 : Option (String × Node))
    (hw1 : nodeWFOpt o1 = true) (hw2 : nodeWFOpt o2 = true)
    (hf : mergeWildcardFuel fuel o1 o2 = .ok r1)
    (hg : mergeWildcardFuel fuel o2 o1 = .ok r2) : r1 = r2 := by
  cases fuel with
  | zero => simp [mergeWildcardFuel] at hf
  | succ fuel =>
    cases o1 with
    | none =>
      cases o2 with
      | none =>
        simp [mergeWildcardFuel, Option.or] at hf hg
        rw [← hf, ← hg]
      | some p2 =>
        cases p2 with
        | mk n2 c2 =>
          simp [mergeWildcardFuel, Option.or] at hf hg
          rw [← hf, ← hg]
    | some p1 =>
      cases p1 with
      | mk n1 c1 =>
      cases o2 with
      | none =>
        simp [mergeWildcardFuel, Option.or] at hf hg
        rw [← hf, ← hg]
      | some p2 =>
        cases p2 with
        | mk n2 c2 =>
        simp only [mergeWildcardFuel] at hf hg
        simp only [nodeWFOpt] at hw1 hw2
        by_cases hn : n1 = n2
        · rw [if_neg (not_ne_iff.mpr hn)] at hf
          rw [if_neg (not_ne_iff.mpr hn.symm)] at hg
          cases hm1 : mergeFuel fuel c1 c2 with
          | error e => rw [hm1] at hf; simp at hf
          | ok cv1 =>
          rw [hm1] at hf
          cases hm2 : mergeFuel fuel c2 c1 with
          | error e => rw [hm2] at hg; simp at hg
          | ok cv2 =>
          rw [hm2] at hg
          simp only [Except.ok.injEq] at hf hg
          subst hf
          subst hg
          have := mergeFuel_comm fuel c1 c2 cv1 cv2 hw1 hw2 hm1 hm2
          rw [hn, this]
        · rw [if_pos hn] at hf
          simp at hf

theorem mergeCatchallFuel_comm (fuel : Nat)
    (o1 o2 : Option (String × Node)) (r1 r2 : Option (String × Node))
    (hw1 : nodeWFOpt o1 = true) (hw2 : nodeWFOpt o2 = true)
    (hf : mergeCatchallFuel fuel o1 o2 = .ok r1)
    (hg : mergeCatchallFuel fuel o2 o1 = .ok r2) : r1 = r2 := by
  cases fuel with
  | zero => simp [mergeCatchallFuel] at hf
  | succ fuel =>
    cases o1 with
    | none =>
      cases o2 with
      | none =>
        simp [mergeCatchallFuel, Option.or] at hf hg
        rw [← hf, ← hg]
      | some p2 =>
        cases p2 with
        | mk n2 c2 =>
          simp [mergeCatchallFuel, Option.or] at hf hg
          rw [← hf, ← hg]
    | some p1 =>
      cases p1 with
      | mk n1 c1 =>
      cases o2 with
      | none =>
        simp [mergeCatchallFuel, Option.or] at hf hg
        rw [← hf, ← hg]
      | some p2 =>
        cases p2 with
        | mk n2 c2 =>
        simp only [mergeCatchallFuel] at hf hg
        simp only [nodeWFOpt] at hw1 hw2
        by_cases hn : n1 = n2
        · rw [if_neg (not_ne_iff.mpr hn)] at hf
          rw [if_neg (not_ne_iff.mpr hn.symm)] at hg
          cases hm1 : mergeFuel fuel c1 c2 with
          | error e => rw [hm1] at hf; simp at hf
          | ok cv1 =>
          rw [hm1] at hf
          cases hm2 : mergeFuel fuel c2 c1 with
          | error e => rw [hm2] at hg; simp at hg
          | ok cv2 =>
          rw [hm2] at hg
          simp only [Except.ok.injEq] at hf hg
          subst hf
          subst hg
          have := mergeFuel_comm fuel c1 c2 cv1 cv2 hw1 hw2 hm1 hm2
          rw [hn, this]
        · rw [if_pos hn] at hf
          simp at hf

theorem mergeChildrenFuel_comm (fuel : Nat)
    (l1 l2 r1 r2 : List (SegKey × Node))
    (hs1 : keysSorted l1 = true) (hc1 : childrenWF l1 = true)
    (hs2 : keysSorted l2 = true) (hc2 : childrenWF l2 = true)
    (hf : mergeChildrenFuel fuel l1 l2 = .ok r1)
    (hg : mergeChildrenFuel fuel l2 l1 = .ok r2) : r1 = r2 := by
  cases fuel with
  | zero => simp [mergeChildrenFuel] at hf
  | succ fuel =>
    cases l1 with
    | nil =>
      cases l2 with
      | nil =>
        simp [mergeChildrenFuel] at hf hg
        simp_all
      | cons b t2 =>
        simp [mergeChildrenFuel] at hf hg
        simp_all
    | cons a t1 =>
      cases a with
      | mk k1 v1 =>
      cases l2 with
      | nil =>
        simp [mergeChildrenFuel] at hf hg
        simp_all
      | cons b t2 =>
        cases b with
        | mk k2 v2 =>
        have hs1t : keysSorted t1 = true := keysSorted_tail _ _ hs1
        have hs2t : keysSorted t2 = true := keysSorted_tail _ _ hs2
        simp only [childrenWF, Bool.and_eq_true] at hc1 hc2
        obtain ⟨hv1, hc1t⟩ := hc1
        obtain ⟨hv2, hc2t⟩ := hc2
        simp only [mergeChildrenFuel] at hf hg
        by_cases hb1 : SegKey.blt k1 k2 = true
        · have hb2 : SegKey.blt k2 k1 = false := blt_asymm _ _ hb1
          rw [if_pos hb1] at hf
          rw [if_neg (by simp [hb2]), if_pos hb1] at hg
          cases hr1 : mergeChildrenFuel fuel t1 ((k2, v2) :: t2) with
          | error e => rw [hr1] at hf; simp at hf
          | ok rr1 =>
          rw [hr1] at hf
          cases hr2 : mergeChildrenFuel fuel ((k2, v2) :: t2) t1 with
          | error e => rw [hr2] at hg; simp at hg
          | ok rr2 =>
          rw [hr2] at hg
          simp only [Except.ok.injEq] at hf hg
          subst hf
          subst hg
          have := mergeChildrenFuel_comm fuel t1 ((k2, v2) :: t2) rr1 rr2
            hs1t hc1t hs2 (by simp [childrenWF, hv2, hc2t]) hr1 hr2
          rw [this]
        · by_cases hb2 : SegKey.blt k2 k1 = true
          · rw [if_neg (by simp [hb1]), if_pos hb2] at hf
            rw [if_pos hb2] at hg
            cases hr1 : mergeChildrenFuel fuel ((k1, v1) :: t1) t2 with
            | error e => rw [hr1] at hf; simp at hf
            | ok rr1 =>
            rw [hr1] at hf
            cases hr2 : mergeChildrenFuel fuel t2 ((k1, v1) :: t1) with
            | error e => rw [hr2] at hg; simp at hg
            | ok rr2 =>
            rw [hr2] at hg
            simp only [Except.ok.injEq] at hf hg
            subst hf
            subst hg
            have := mergeChildrenFuel_comm fuel ((k1, v1) :: t1) t2 rr1 rr2
              hs1 (by simp [childrenWF, hv1, hc1t]) hs2t hc2t hr1 hr2
            rw [this]
          · have hk : k1 = k2 := blt_conn k1 k2 (by simpa using hb1) (by simpa using hb2)
            rw [if_neg (by simp [hb1]), if_neg (by simp [hb2])] at hf
            rw [if_neg (by simp [hb2]), if_neg (by simp [hb1])] at hg
            cases hm1 : mergeFuel fuel v1 v2 with
            | error e => rw [hm1] at hf; simp at hf
            | ok vv1 =>
            rw [hm1] at hf
            cases hm2 : mergeFuel fuel v2 v1 with
            | error e => rw [hm2] at hg; simp at hg
            | ok vv2 =>
            rw [hm2] at hg
            cases hr1 : mergeChildrenFuel fuel t1 t2 with
            | error e => rw [hr1] at hf; simp at hf
            | ok rr1 =>
            rw [hr1] at hf
            cases hr2 : mergeChildrenFuel fuel t2 t1 with
            | error e => rw [hr2] at hg; simp at hg
            | ok rr2 =>
            rw [hr2] at hg
            simp only [Except.ok.injEq] at hf hg
            subst hf
            subst hg
            have ev : vv1 = vv2 := mergeFuel_comm fuel v1 v2 vv1 vv2 hv1 hv2 hm1 hm2
            have er : rr1 = rr2 := mergeChildrenFuel_comm fuel t1 t2 rr1 rr2
              hs1t hc1t hs2t hc2t hr1 hr2
            rw [hk, ev, er]
end


/-- Claim C2, counterexample: merge success does not transfer to the
swapped order. With a carrying node middleware 5 and b empty,
_merge_trees a b succeeds (returning a) while _merge_trees b a raises the
conflicting-middleware error, because the middleware check only fires when
the second argument carries non-empty middleware. -/
theorem merge_not_commutative :
    _merge_trees c2a c2b = .ok c2a ∧
    _merge_trees c2b c2a = .error "node being merged in has conflicting middleware" :=
  ⟨rfl, rfl⟩

/-- Claim C2 (amended): when both orders of the merge succeed, the results
are structurally equal, for trees whose children lists are in the
canonical key-sorted form representing FrozenDict. (Success itself does
not transfer: see the counterexample.) -/
theorem merge_commutative_on_success (a b ra rb : Node)
    (hwa : nodeWF a = true) (hwb : nodeWF b = true)
    (hf : _merge_trees a b = .ok ra) (hg : _merge_trees b a = .ok rb) :
    ra = rb := by
  unfold _merge_trees at hf hg
  rw [Nat.add_comm (nodeSize b) (nodeSize a)] at hg
  exact mergeFuel_comm (nodeSize a + nodeSize b + 1) a b ra rb hwa hwb hf hg

/-- Witness for merge_commutative_on_success: both orders of merging c2wa
and c2wb succeed with the same result c2wr. -/
theorem merge_commutative_on_success_witness :
    nodeWF c2wa = true ∧ nodeWF c2wb = true ∧
    _merge_trees c2wa c2wb = .ok c2wr ∧ _merge_trees c2wb c2wa = .ok c2wr ∧
    c2wr = c2wr :=
  ⟨rfl, rfl, rfl, rfl,
    merge_commutative_on_success c2wa c2wb c2wr c2wr rfl rfl rfl rfl⟩


mutual
theorem mergeFuel_no_fuel_error (fuel : Nat) (t1 t2 : Node)
    (h : nodeSize t1 + nodeSize t2 < fuel) :
    mergeFuel fuel t1 t2 ≠ .error "out of fuel" := by
  cases fuel with
  | zero => omega
  | succ fuel =>
    cases t1 with
    | mk h1 mw1 ch1 wc1 ca1 nfh1 mnah1 =>
    cases t2 with
    | mk h2 mw2 ch2 wc2 ca2 nfh2 mnah2 =>
    simp only [nodeSize] at h
    intro heq
    simp only [mergeFuel] at heq
    by_cases c1 : conflictingOpt h1 h2 = true
    · rw [if_pos c1] at heq
      simp only [Except.error.injEq] at heq
      exact absurd heq (by decide)
    rw [if_neg c1] at heq
    by_cases c2 : conflictingOpt nfh1 nfh2 = true
    · rw [if_pos c2] at heq
      simp only [Except.error.injEq] at heq
      exact absurd heq (by decide)
    rw [if_neg c2] at heq
    by_cases c3 : conflictingOpt mnah1 mnah2 = true
    · rw [if_pos c3] at heq
      simp only [Except.error.injEq] at heq
      exact absurd heq (by decide)
    rw [if_neg c3] at heq
    by_cases c4 : (!mw2.isEmpty && mw1 != mw2) = true
    · rw [if_pos c4] at heq
      simp only [Except.error.injEq] at heq
      exact absurd heq (by decide)
    rw [if_neg c4] at heq
    cases hwc : mergeWildcardFuel fuel wc1 wc2 with
    | error e =>
      rw [hwc] at heq
      simp only [Except.error.injEq] at heq
      subst heq
      exact mergeWildcardFuel_no_fuel_error fuel wc1 wc2 (by omega) hwc
    | ok wcv =>
    rw [hwc] at heq
    cases hca : mergeCatchallFuel fuel ca1 ca2 with
    | error e =>
      rw [hca] at heq
      simp only [Except.error.injEq] at heq
      subst heq
      exact mergeCatchallFuel_no_fuel_error fuel ca1 ca2 (by omega) hca
    | ok cav =>
    rw [hca] at heq
    cases hch : mergeChildrenFuel fuel ch1 ch2 with
    | error e =>
      rw [hch] at heq
      simp only [Except.error.injEq] at heq
      subst heq
      exact mergeChildrenFuel_no_fuel_error fuel ch1 ch2 (by omega) hch
    | ok chv =>
    rw [hch] at heq
    exact absurd heq (by simp)

theorem mergeWildcardFuel_no_fuel_error (fuel : Nat)
    (o1 o2 : Option (String × Node))
    (h : optSize o1 + optSize o2 < fuel) :
    mergeWildcardFuel fuel o1 o2 ≠ .error "out of fuel" := by
  cases fuel with
  | zero => omega
  | succ fuel =>
    intro heq
    cases o1 with
    | none => simp [mergeWildcardFuel] at heq
    | some p1 =>
      cases p1 with
      | mk n1 c1 =>
      cases o2 with
      | none => simp [mergeWildcardFuel] at heq
      | some p2 =>
        cases p2 with
        | mk n2 c2 =>
        simp only [optSize, nodeSize] at h
        simp only [mergeWildcardFuel] at heq
        by_cases hn : n1 ≠ n2
        · rw [if_pos hn] at heq
          simp only [Except.error.injEq] at heq
          exact absurd heq (by decide)
        rw [if_neg hn] at heq
        cases hm : mergeFuel fuel c1 c2 with
        | error e =>
          rw [hm] at heq
          simp only [Except.error.injEq] at heq
          subst heq
          exact mergeFuel_no_fuel_error fuel c1 c2 (by omega) hm
        | ok cv =>
          rw [hm] at heq
          exact absurd heq (by simp)

theorem mergeCatchallFuel_no_fuel_error (fuel : Nat)
    (o1 o2 : Option (String × Node))
    (h : optSize o1 + optSize o2 < fuel) :
    mergeCatchallFuel fuel o1 o2 ≠ .error "out of fuel" := by
  cases fuel with
  | zero => omega
  | succ fuel =>
    intro heq
    cases o1 with
    | none => simp [mergeCatchallFuel] at heq
    | some p1 =>
      cases p1 with
      | mk n1 c1 =>
      cases o2 with
      | none => simp [mergeCatchallFuel] at heq
      | some p2 =>
        cases p2 with
        | mk n2 c2 =>
        simp only [optSize, nodeSize] at h
        simp only [mergeCatchallFuel] at heq
        by_cases hn : n1 ≠ n2
        · rw [if_pos hn] at heq
          simp only [Except.error.injEq] at heq
          exact absurd heq (by decide)
        rw [if_neg hn] at heq
        cases hm : mergeFuel fuel c1 c2 with
        | error e =>
          rw [hm] at heq
          simp only [Except.error.injEq] at heq
          subst heq
          exact mergeFuel_no_fuel_error fuel c1 c2 (by omega) hm
        | ok cv =>
          rw [hm] at heq
          exact absurd heq (by simp)

theorem mergeChildrenFuel_no_fuel_error (fuel : Nat)
    (l1 l2 : List (SegKey × Node))
    (h : childrenSize l1 + childrenSize l2 < fuel) :
    mergeChildrenFuel fuel l1 l2 ≠ .error "out of fuel" := by
  cases fuel with
  | zero => omega
  | succ fuel =>
    intro heq
    cases l1 with
    | nil => simp [mergeChildrenFuel] at heq
    | cons a t1 =>
      cases a with
      | mk k1 v1 =>
      cases l2 with
      | nil => simp [mergeChildrenFuel] at heq
      | cons b t2 =>
        cases b with
        | mk k2 v2 =>
        simp only [childrenSize] at h
        simp only [mergeChildrenFuel] at heq
        by_cases hb1 : SegKey.blt k1 k2 = true
        · rw [if_pos hb1] at heq
          cases hr : mergeChildrenFuel fuel t1 ((k2, v2) :: t2) with
          | error e =>
            rw [hr] at heq
            simp only [Except.error.injEq] at heq
            subst heq
            exact mergeChildrenFuel_no_fuel_error fuel t1 ((k2, v2) :: t2)
              (by simp only [childrenSize]; omega) hr
          | ok rr =>
            rw [hr] at heq
            exact absurd heq (by simp)
        rw [if_neg hb1] at heq
        by_cases hb2 : SegKey.blt k2 k1 = true
        · rw [if_pos hb2] at heq
          cases hr : mergeChildrenFuel fuel ((k1, v1) :: t1) t2 with
          | error e =>
            rw [hr] at heq
            simp only [Except.error.injEq] at heq
            subst heq
            exact mergeChildrenFuel_no_fuel_error fuel ((k1, v1) :: t1) t2
              (by simp only [childrenSize]; omega) hr
          | ok rr =>
            rw [hr] at heq
            exact absurd heq (by simp)
        rw [if_neg hb2] at heq
        cases hm : mergeFuel fuel v1 v2 with
        | error e =>
          rw [hm] at heq
          simp only [Except.error.injEq] at heq
          subst heq
          exact mergeFuel_no_fuel_error fuel v1 v2 (by omega) hm
        | ok vv =>
        rw [hm] at heq
        cases hr : mergeChildrenFuel fuel t1 t2 with
        | error e =>
          rw [hr] at heq
          simp only [Except.error.injEq] at heq
          subst heq
          exact mergeChildrenFuel_no_fuel_error fuel t1 t2 (by omega) hr
        | ok rr =>
          rw [hr] at heq
          exact absurd heq (by simp)
end

/-- The fuel passed by the _merge_trees wrapper strictly exceeds every
recursion depth, so the out-of-fuel branch is unreachable: the wrapper is
a total implementation of the partial Python recursion. -/
theorem merge_trees_no_fuel_error (t1 t2 : Node) :
    _merge_trees t1 t2 ≠ .error "out of fuel" :=
  mergeFuel_no_fuel_error (nodeSize t1 + nodeSize t2 + 1) t1 t2 (by omega)


theorem keysSorted_cons (k : SegKey) (v : Node) (t : List (SegKey × Node)) :
    keysSorted ((k, v) :: t) = (keyLB k t && keysSorted t) := by
  cases t with
  | nil => simp [keysSorted, keyLB]
  | cons b t2 =>
    cases b with
    | mk k2 v2 => simp [keysSorted, keyLB]

mutual
theorem mergeFuel_wf (fuel : Nat) (a b r : Node)
    (hwa : nodeWF a = true) (hwb : nodeWF b = true)
    (hm : mergeFuel fuel a b = .ok r) : nodeWF r = true := by
  cases fuel with
  | zero => simp [mergeFuel] at hm
  | succ fuel =>
    cases a with
    | mk h1 mw1 ch1 wc1 ca1 nfh1 mnah1 =>
    cases b with
    | mk h2 mw2 ch2 wc2 ca2 nfh2 mnah2 =>
    simp only [nodeWF, Bool.and_eq_true] at hwa hwb
    obtain ⟨⟨⟨hs1, hc1⟩, hw1⟩, hx1⟩ := hwa
    obtain ⟨⟨⟨hs2, hc2⟩, hw2⟩, hx2⟩ := hwb
    simp only [mergeFuel] at hm
    by_cases c1 : conflictingOpt h1 h2 = true
    · rw [if_pos c1] at hm
      simp at hm
    rw [if_neg c1] at hm
    by_cases c2 : conflictingOpt nfh1 nfh2 = true
    · rw [if_pos c2] at hm
      simp at hm
    rw [if_neg c2] at hm
    by_cases c3 : conflictingOpt mnah1 mnah2 = true
    · rw [if_pos c3] at hm
      simp at hm
    rw [if_neg c3] at hm
    by_cases c4 : (!mw2.isEmpty && mw1 != mw2) = true
    · rw [if_pos c4] at hm
      simp at hm
    rw [if_neg c4] at hm
    cases hwc : mergeWildcardFuel fuel wc1 wc2 with
    | error e => rw [hwc] at hm; simp at hm
    | ok wcv =>
    rw [hwc] at hm
    cases hca : mergeCatchallFuel fuel ca1 ca2 with
    | error e => rw [hca] at hm; simp at hm
    | ok cav =>
    rw [hca] at hm
    cases hch : mergeChildrenFuel fuel ch1 ch2 with
    | error e => rw [hch] at hm; simp at hm
    | ok chv =>
    rw [hch] at hm
    simp only [Except.ok.injEq] at hm
    subst hm
    have ewc := mergeWildcardFuel_wf fuel wc1 wc2 wcv hw1 hw2 hwc
    have eca := mergeCatchallFuel_wf fuel ca1 ca2 cav hx1 hx2 hca
    have ech := mergeChildrenFuel_wf fuel ch1 ch2 chv hs1 hc1 hs2 hc2 hch
    simp [nodeWF, ewc, eca, ech.1, ech.2.1]

theorem mergeWildcardFuel_wf (fuel : Nat)
    (o1 o2 r : Option (String × Node))
    (hw1 : nodeWFOpt o1 = true) (hw2 : nodeWFOpt o2 = true)
    (hm : mergeWildcardFuel fuel o1 o2 = .ok r) : nodeWFOpt r = true := by
  cases fuel with
  | zero => simp [mergeWildcardFuel] at hm
  | succ fuel =>
    cases o1 with
    | none =>
      cases o2 with
      | none =>
        simp [mergeWildcardFuel, Option.or] at hm
        simp [← hm, nodeWFOpt]
      | some p2 =>
        simp [mergeWildcardFuel, Option.or] at hm
        rw [← hm]
        exact hw2
    | some p1 =>
      cases p1 with
      | mk n1 c1 =>
      cases o2 with
      | none =>
        simp [mergeWildcardFuel, Option.or] at hm
        rw [← hm]
        exact hw1
      | some p2 =>
        cases p2 with
        | mk n2 c2 =>
        simp only [mergeWildcardFuel] at hm
        simp only [nodeWFOpt] at hw1 hw2
        by_cases hn : n1 ≠ n2
        · rw [if_pos hn] at hm
          simp at hm
        rw [if_neg hn] at hm
        cases hc : mergeFuel fuel c1 c2 with
        | error e => rw [hc] at hm; simp at hm
        | ok cv =>
          rw [hc] at hm
          simp only [Except.ok.injEq] at hm
          subst hm
          simpa [nodeWFOpt] using mergeFuel_wf fuel c1 c2 cv hw1 hw2 hc

theorem mergeCatchallFuel_wf (fuel : Nat)
    (o1 o2 r : Option (String × Node))
    (hw1 : nodeWFOpt o1 = true) (hw2 : nodeWFOpt o2 = true)
    (hm : mergeCatchallFuel fuel o1 o2 = .ok r) : nodeWFOpt r = true := by
  cases fuel with
  | zero => simp [mergeCatchallFuel] at hm
  | succ fuel =>
    cases o1 with
    | none =>
      cases o2 with
      | none =>
        simp [mergeCatchallFuel, Option.or] at hm
        simp [← hm, nodeWFOpt]
      | some p2 =>
        simp [mergeCatchallFuel, Option.or] at hm
        rw [← hm]
        exact hw2
    | some p1 =>
      cases p1 with
      | mk n1 c1 =>
      cases o2 with
      | none =>
        simp [mergeCatchallFuel, Option.or] at hm
        rw [← hm]
        exact hw1
      | some p2 =>
        cases p2 with
        | mk n2 c2 =>
        simp only [mergeCatchallFuel] at hm
        simp only [nodeWFOpt] at hw1 hw2
        by_cases hn : n1 ≠ n2
        · rw [if_pos hn] at hm
          simp at hm
        rw [if_neg hn] at hm
        cases hc : mergeFuel fuel c1 c2 with
        | error e => rw [hc] at hm; simp at hm
        | ok cv =>
          rw [hc] at hm
          simp only [Except.ok.injEq] at hm
          subst hm
          simpa [nodeWFOpt] using mergeFuel_wf fuel c1 c2 cv hw1 hw2 hc

theorem mergeChildrenFuel_wf (fuel : Nat)
    (l1 l2 r : List (SegKey × Node))
    (hs1 : keysSorted l1 = true) (hc1 : childrenWF l1 = true)
    (hs2 : keysSorted l2 = true) (hc2 : childrenWF l2 = true)
    (hm : mergeChildrenFuel fuel l1 l2 = .ok r) :
    keysSorted r = true ∧ childrenWF r = true ∧
      ∀ k, keyLB k l1 = true → keyLB k l2 = true → keyLB k r = true := by
  cases fuel with
  | zero => simp [mergeChildrenFuel] at hm
  | succ fuel =>
    cases l1 with
    | nil =>
      simp only [mergeChildrenFuel, Except.ok.injEq] at hm
      subst hm
      exact ⟨hs2, hc2, fun k _ h2 => h2⟩
    | cons a t1 =>
      cases a with
      | mk k1 v1 =>
      cases l2 with
      | nil =>
        simp only [mergeChildrenFuel, Except.ok.injEq] at hm
        subst hm
        exact ⟨hs1, hc1, fun k h1 _ => h1⟩
      | cons b t2 =>
        cases b with
        | mk k2 v2 =>
        rw [keysSorted_cons, Bool.and_eq_true] at hs1 hs2
        obtain ⟨hlb1, hs1t⟩ := hs1
        obtain ⟨hlb2, hs2t⟩ := hs2
        simp only [childrenWF, Bool.and_eq_true] at hc1 hc2
        obtain ⟨hv1, hc1t⟩ := hc1
        obtain ⟨hv2, hc2t⟩ := hc2
        simp only [mergeChildrenFuel] at hm
        by_cases hb1 : SegKey.blt k1 k2 = true
        · rw [if_pos hb1] at hm
          cases hr : mergeChildrenFuel fuel t1 ((k2, v2) :: t2) with
          | error e => rw [hr] at hm; simp at hm
          | ok rr =>
          rw [hr] at hm
          simp only [Except.ok.injEq] at hm
          subst hm
          have sub := mergeChildrenFuel_wf fuel t1 ((k2, v2) :: t2) rr
            hs1t hc1t (by rw [keysSorted_cons]; simp [hlb2, hs2t])
            (by simp [childrenWF, hv2, hc2t]) hr
          refine ⟨?_, by simp [childrenWF, hv1, sub.2.1], ?_⟩
          · rw [keysSorted_cons]
            simp [sub.1, sub.2.2 k1 hlb1 (by simp [keyLB, hb1])]
          · intro k hk1 hk2
            simp only [keyLB] at hk1 ⊢
            exact hk1
        rw [if_neg hb1] at hm
        by_cases hb2 : SegKey.blt k2 k1 = true
        · rw [if_pos hb2] at hm
          cases hr : mergeChildrenFuel fuel ((k1, v1) :: t1) t2 with
          | error e => rw [hr] at hm; simp at hm
          | ok rr =>
          rw [hr] at hm
          simp only [Except.ok.injEq] at hm
          subst hm
          have sub := mergeChildrenFuel_wf fuel ((k1, v1) :: t1) t2 rr
            (by rw [keysSorted_cons]; simp [hlb1, hs1t])
            (by simp [childrenWF, hv1, hc1t]) hs2t hc2t hr
          refine ⟨?_, by simp [childrenWF, hv2, sub.2.1], ?_⟩
          · rw [keysSorted_cons]
            simp [sub.1, sub.2.2 k2 (by simp [keyLB, hb2]) hlb2]
          · intro k hk1 hk2
            simp only [keyLB] at hk2 ⊢
            exact hk2
        rw [if_neg hb2] at hm
        have hk12 : k1 = k2 := blt_conn k1 k2 (by simpa using hb1) (by simpa using hb2)
        cases hv : mergeFuel fuel v1 v2 with
        | error e => rw [hv] at hm; simp at hm
        | ok vv =>
        rw [hv] at hm
        cases hr : mergeChildrenFuel fuel t1 t2 with
        | error e => rw [hr] at hm; simp at hm
        | ok rr =>
        rw [hr] at hm
        simp only [Except.ok.injEq] at hm
        subst hm
        have hvv := mergeFuel_wf fuel v1 v2 vv hv1 hv2 hv
        have sub := mergeChildrenFuel_wf fuel t1 t2 rr hs1t hc1t hs2t hc2t hr
        refine ⟨?_, by simp [childrenWF, hvv, sub.2.1], ?_⟩
        · rw [keysSorted_cons]
          have hlb2k1 : keyLB k1 t2 = true := by rw [hk12]; exact hlb2
          simp [sub.1, sub.2.2 k1 hlb1 hlb2k1]
        · intro k hk1 hk2
          simp only [keyLB] at hk1 ⊢
          exact hk1
end


theorem emptyNode_wf : nodeWF emptyNode = true := rfl

theorem wrapSeg_wf (seg : String) (child : Node) (h : nodeWF child = true) :
    nodeWF (wrapSeg seg child) = true := by
  simp only [wrapSeg]
  split_ifs with h1 h2 <;>
    simp [nodeWF, keysSorted, childrenWF, nodeWFOpt, h]

theorem buildSegs_wf : ∀ (segs : List String) (child : Node),
    nodeWF child = true → nodeWF (buildSegs segs child) = true := by
  intro segs
  induction segs with
  | nil => intro child h; exact h
  | cons seg rest ih =>
    intro child h
    exact wrapSeg_wf seg _ (ih child h)

theorem construct_sub_tree_wf (path : String) (child r : Node)
    (h : nodeWF child = true) (hc : _construct_sub_tree path child = .ok r) :
    nodeWF r = true := by
  unfold _construct_sub_tree at hc
  by_cases hs : listStarts ['/'] path.data = true
  · rw [if_pos hs] at hc
    simp only [Except.ok.injEq] at hc
    subst hc
    exact buildSegs_wf (splitPath path) child h
  · rw [if_neg hs] at hc
    simp at hc

theorem construct_route_tree_wf (method : LeafKey) (path : String)
    (handler : Handler) (mw : List MW) (r : Node)
    (hc : _construct_route_tree method path handler mw = .ok r) :
    nodeWF r = true := by
  unfold _construct_route_tree at hc
  exact construct_sub_tree_wf path
    (Node.mk none [] [(SegKey.leaf method,
      Node.mk (some handler) mw [] none none none none)] none none none none)
    r rfl hc

theorem add_route_wf (tree : Node) (method : LeafKey) (path : String)
    (handler : Handler) (mw : List MW) (r : Node)
    (hw : nodeWF tree = true) (h : add_route tree method path handler mw = .ok r) :
    nodeWF r = true := by
  unfold add_route at h
  cases hc : _construct_route_tree method path handler mw with
  | error e => rw [hc] at h; simp at h
  | ok nt =>
    rw [hc] at h
    unfold _merge_trees at h
    exact mergeFuel_wf _ tree nt r hw
      (construct_route_tree_wf method path handler mw nt hc) h

theorem finalizeChildren_sorted (d1 d2 : Handler) (mw : List MW) :
    ∀ l, keysSorted (finalizeChildren l d1 d2 mw) = keysSorted l := by
  intro l
  induction l with
  | nil => rfl
  | cons a t ih =>
    cases a with
    | mk k c =>
      cases t with
      | nil => simp [finalizeChildren, keysSorted]
      | cons b t2 =>
        cases b with
        | mk k2 c2 =>
          simp only [finalizeChildren] at ih ⊢
          simp only [keysSorted]
          rw [ih]

mutual
theorem nodeWF_finalize (t : Node) (d1 d2 : Handler) (mw : List MW)
    (h : nodeWF t = true) : nodeWF (finalize_tree t d1 d2 mw) = true := by
  cases t with
  | mk h1 m1 ch wc ca nfh mnah =>
    simp only [nodeWF, Bool.and_eq_true] at h
    obtain ⟨⟨⟨hs, hc⟩, hw⟩, hx⟩ := h
    simp only [finalize_tree, nodeWF, Bool.and_eq_true]
    refine ⟨⟨⟨?_, ?_⟩, ?_⟩, ?_⟩
    · rw [finalizeChildren_sorted]
      exact hs
    · exact childrenWF_finalize ch _ _ _ hc
    · exact nodeWFOpt_finalize wc _ _ _ hw
    · exact nodeWFOpt_finalize ca _ _ _ hx

theorem nodeWFOpt_finalize (o : Option (String × Node)) (d1 d2 : Handler)
    (mw : List MW) (h : nodeWFOpt o = true) :
    nodeWFOpt (finalizeOpt o d1 d2 mw) = true := by
  cases o with
  | none => simp [finalizeOpt, nodeWFOpt]
  | some p =>
    cases p with
    | mk n c =>
      simp only [nodeWFOpt] at h
      simpa [finalizeOpt, nodeWFOpt] using nodeWF_finalize c d1 d2 mw h

theorem childrenWF_finalize (l : List (SegKey × Node)) (d1 d2 : Handler)
    (mw : List MW) (h : childrenWF l = true) :
    childrenWF (finalizeChildren l d1 d2 mw) = true := by
  cases l with
  | nil => simp [finalizeChildren, childrenWF]
  | cons a t =>
    cases a with
    | mk k c =>
      simp only [childrenWF, Bool.and_eq_true] at h
      simp [finalizeChildren, childrenWF, nodeWF_finalize c _ _ _ h.1,
        childrenWF_finalize t _ _ _ h.2]
end

end Muxy
